import Mathlib

/-!
Verification of the engine-client layer of the Jan model extension
(`extensions/model-extension/src/cortex.ts`): the serialized request queue,
the model normalizer (`transformModel`), the `getModels` / `pullModel`
response handling, and the websocket event bridge.

JavaScript JSON values are embedded as the inductive type `JVal`; JS objects
are association lists of fields where lookup takes the first matching key
(every object built here has distinct keys).  JS numbers are embedded as `Rat`:
all byte counters and percentages in the claims are exact rationals.
-/

/-- A JavaScript JSON value (result of `JSON.parse` / request bodies). -/
inductive JVal where
  | null : JVal
  | bool : Bool → JVal
  | num : Rat → JVal
  | str : String → JVal
  | arr : List JVal → JVal
  | obj : List (String × JVal) → JVal

/-- The fields of a JS object. -/
abbrev JFields := List (String × JVal)

/-- Property read `o[k]`: first field with the key, `none` embeds `undefined`. -/
def jGet (fs : JFields) (k : String) : Option JVal :=
  (fs.find? (fun p => p.1 = k)).map (·.2)

/-- Property assignment `o[k] = v`: removes any field with key `k` and appends
`(k, v)`.  (JS keeps the original slot position; field order is not observed
by any claim, so the canonical remove-and-append form is used.) -/
def jSet (fs : JFields) (k : String) (v : JVal) : JFields :=
  fs.filter (fun p => p.1 ≠ k) ++ [(k, v)]

/-- Whether an object has a field with key `k`. -/
def jHas (fs : JFields) (k : String) : Bool :=
  (jGet fs k).isSome

/-- Spread `{...a, ...b}`: fields of `b` win over fields of `a`. -/
def jsSpread (a b : JFields) : JFields :=
  a.filter (fun p => ¬ jHas b p.1) ++ b

/-- The fields an object-spread takes from a value: the fields of an object,
nothing from `null`/`undefined` (spread of a nullish value is a no-op). -/
def asObjFields : Option JVal → JFields
  | some (.obj fs) => fs
  | _ => []

/-- JS nullish test (`x ?? y` picks `y` exactly when `x` is nullish):
`undefined` (absent) or `null`. -/
def isNullish : Option JVal → Bool
  | none => true
  | some .null => true
  | some _ => false

/-- `a ?? b` on an optional property read. -/
def jsNullishOr (a : Option JVal) (b : JVal) : JVal :=
  match a with
  | some .null => b
  | none => b
  | some v => v

/-- Modelled from the spec: `extractInferenceParams` of `@janhq/core` (not under
`src/`) — "inference-parameter defaults" derived from the raw record, i.e. the
record's top-level fields whose keys are known inference-time knobs. -/
def inferenceParamKeys : List String :=
  ["temperature", "token_limit", "top_k", "top_p", "stream", "max_tokens",
   "stop", "frequency_penalty", "presence_penalty"]

/-- Modelled from the spec: `extractModelLoadParams` of `@janhq/core` (not under
`src/`) — "load-parameter defaults" derived from the raw record, i.e. the
record's top-level fields whose keys are known load-time knobs. -/
def loadParamKeys : List String :=
  ["ctx_len", "ngl", "embedding", "n_parallel", "cpu_threads",
   "prompt_template", "llama_model_path", "mmproj"]

/-- Modelled from the spec: pick out of a record the fields whose keys belong
to the given knob-key list, in list order. -/
def extractParams (keys : List String) (m : JFields) : JFields :=
  keys.filterMap (fun k => (jGet m k).map (fun v => (k, v)))

/-- Modelled from the spec: the derived inference-parameter defaults. -/
def extractInferenceParams (m : JFields) : JFields :=
  extractParams inferenceParamKeys m

/-- Modelled from the spec: the derived load-parameter defaults. -/
def extractModelLoadParams (m : JFields) : JFields :=
  extractParams loadParamKeys m

/-- The metadata default `{tags: [], size: model.size ?? model.metadata?.size ?? 0}`,
evaluated only when `model.metadata` is nullish (so `model.metadata?.size` is
`undefined` and the chain reduces to `model.size ?? 0`). -/
def defaultMetadata (m : JFields) : JVal :=
  .obj [("tags", .arr []), ("size", jsNullishOr (jGet m "size") (.num 0))]

/-- `CortexAPI.transformModel` on an object's fields:
`model.parameters = {...extractInferenceParams(model), ...model.parameters}`;
`model.settings  = {...extractModelLoadParams(model), ...model.settings}`;
`model.metadata  = model.metadata ?? {tags: [], size: model.size ?? model.metadata?.size ?? 0}`,
as three sequential property assignments on the record. -/
def transformModelFields (m : JFields) : JFields :=
  let m1 := jSet m "parameters"
    (.obj (jsSpread (extractInferenceParams m) (asObjFields (jGet m "parameters"))))
  let m2 := jSet m1 "settings"
    (.obj (jsSpread (extractModelLoadParams m1) (asObjFields (jGet m1 "settings"))))
  jSet m2 "metadata" (jsNullishOr (jGet m2 "metadata") (defaultMetadata m2))

/-- `CortexAPI.transformModel` on a raw JSON value: property assignment on a
non-object primitive throws in strict mode. -/
def transformModel : JVal → Except String JVal
  | .obj fs => .ok (.obj (transformModelFields fs))
  | _ => .error "TypeError: cannot create property on primitive"

/-- `CortexAPI.getModels` post-processing of the parsed response `e`:
`typeof e === 'object' ? e.data.map((e) => this.transformModel(e)) : []`.
`typeof` yields `'object'` for objects, arrays and `null`; on `null` the read
`e.data` throws, on an array or an object without a `data` array the call
`e.data.map` throws.  `Except.error` embeds a thrown `TypeError`. -/
def typeofIsObject : JVal → Bool
  | .null => true
  | .arr _ => true
  | .obj _ => true
  | _ => false

/-- `e.data.map((e) => this.transformModel(e))`: one transformed record per
element, in order; the first element that makes the callback throw aborts the
map with that error. -/
def mapTransform : List JVal → Except String (List JVal)
  | [] => .ok []
  | x :: xs => do
    let y ← transformModel x
    let ys ← mapTransform xs
    return y :: ys

/-- `CortexAPI.getModels` result on a parsed backend response. -/
def getModelsFromResponse (e : JVal) : Except String (List JVal) :=
  if typeofIsObject e then
    match e with
    | .obj fs =>
      match jGet fs "data" with
      | some (.arr xs) => mapTransform xs
      | _ => .error "TypeError: e.data.map is not a function"
    | _ => .error "TypeError: cannot read properties of null"
  else
    .ok []

/-- An HTTP interaction outcome for `pullModel`, as seen after `ky.post(...).json()`:
either the request was accepted (2xx) and its body parse attempted, or it failed
with an HTTP error carrying a response whose body parse is attempted
(`e.response?.json()`), or it failed at the network level with no response.
`Option JVal` in a body position is the parse result (`none`: the body is not
valid JSON, so `.json()` rejects). -/
inductive PullOutcome where
  | accepted (body : Option JVal)
  | httpError (body : Option JVal)
  | networkError

/-- A value the `pullModel` promise rejects with. -/
inductive PullReject where
  | backendBody (v : JVal)
  | rawHttpError
  | rawNetworkError
  | bodyParseError

/-- `CortexAPI.pullModel` result:
`ky.post(...).json().catch(async (e) => { throw (await e.response?.json()) ?? e }).then()`.
On a 2xx with valid JSON body it resolves (`.then()` discards the body);
if `.json()` rejects with a parse error, the catch sees an error without a
`response`, so `undefined ?? e` rethrows the parse error.  On an HTTP error the
error body is parsed: a parse failure rejects with the parse error (the `await`
throws before `??` is reached), a non-nullish parsed body is thrown itself, and
a `null` body falls through `??` to the raw HTTP error.  A network error has no
`response`, so the raw error is rethrown. -/
def pullModelResult : PullOutcome → Except PullReject Unit
  | .accepted (some _) => .ok ()
  | .accepted none => .error .bodyParseError
  | .httpError (some .null) => .error .rawHttpError
  | .httpError (some v) => .error (.backendBody v)
  | .httpError none => .error .bodyParseError
  | .networkError => .error .rawNetworkError

/-! ## The websocket event bridge

`CortexAPI.subscribeToEvents` installs a message handler that decodes each
push frame as `{type, task: {id, items: [{downloadedBytes, bytes}, ...]}}`
(frames are assumed well-formed, per the spec's external-interface section),
aggregates the item byte counters, emits one event under the name
`DownloadTypes[data.type]`, and — when `data.type === DownloadTypes.DownloadSuccess`
— schedules `events.emit(ModelEvent.OnModelsUpdate, {})` after 500 ms. -/

/-- One transfer item of a download task push frame. -/
structure DownloadItem where
  downloadedBytes : Rat
  bytes : Rat

/-- The `task` object of a push frame. -/
structure DownloadTask where
  id : String
  items : List DownloadItem

/-- A decoded push frame. -/
structure PushFrame where
  type : String
  task : DownloadTask

/-- The `DownloadTypes` string enum, as the object TypeScript compiles it to:
member keys mapping to member string values.  A string enum has no reverse
mapping, so indexing it by one of its *values* yields `undefined`. -/
def downloadTypesMembers : List (String × String) :=
  [("DownloadUpdated", "onFileDownloadUpdate"),
   ("DownloadError", "onFileDownloadError"),
   ("DownloadSuccess", "onFileDownloadSuccess"),
   ("DownloadStopped", "onFileDownloadStopped"),
   ("DownloadStarted", "onFileDownloadStarted")]

/-- The index read `DownloadTypes[t]`; `none` embeds `undefined`. -/
def downloadTypesIndex (t : String) : Option String :=
  (downloadTypesMembers.find? (fun p => p.1 = t)).map (·.2)

/-- `ModelEvent.OnModelsUpdate` of `@janhq/core`. -/
def onModelsUpdateEvent : String := "OnModelsUpdate"

/-- The payload emitted for a push frame. -/
structure DownloadEventPayload where
  modelId : String
  percent : Rat
  transferred : Rat
  total : Rat
deriving DecidableEq

/-- An observable action of the message handler, in program order. -/
inductive BridgeAction where
  | emit (name : Option String) (payload : DownloadEventPayload)
  | schedule (delayMs : Nat) (name : String)
deriving DecidableEq

/-- `data.task.items.reduce((acc, cur) => acc + cur.downloadedBytes, 0)`. -/
def frameTransferred (f : PushFrame) : Rat :=
  f.task.items.foldl (fun acc cur => acc + cur.downloadedBytes) 0

/-- `data.task.items.reduce((acc, cur) => acc + cur.bytes, 0)`. -/
def frameTotal (f : PushFrame) : Rat :=
  f.task.items.foldl (fun acc cur => acc + cur.bytes) 0

/-- `total > 0 ? transferred / total : 0`. -/
def framePercent (f : PushFrame) : Rat :=
  if frameTotal f > 0 then frameTransferred f / frameTotal f else 0

/-- The payload `{modelId: data.task.id, percent, size: {transferred, total}}`. -/
def framePayload (f : PushFrame) : DownloadEventPayload :=
  { modelId := f.task.id
    percent := framePercent f
    transferred := frameTransferred f
    total := frameTotal f }

/-- The message handler of `subscribeToEvents`, as its sequence of observable
actions on one frame. -/
def handleMessage (f : PushFrame) : List BridgeAction :=
  [.emit (downloadTypesIndex f.type) (framePayload f)] ++
    (if f.type = "onFileDownloadSuccess" then
      [.schedule 500 onModelsUpdateEvent]
    else
      [])

/-! ## The serialized request queue

`CortexAPI.queue = new PQueue({ concurrency: 1 })`, through which every
operation (`getModel`, `getModels`, `pullModel`, `importModel`, `deleteModel`,
`updateModel`, `cancelModelPull`, `getModelStatus`, and the constructor's
health probe) is routed.  PQueue is an external dependency whose code is not
under `src/`; it is modelled from the spec: a queue with a concurrency limit
`c` admits a pending operation only while fewer than `c` operations are in
flight, admits strictly in enqueue (FIFO) order, and settles each operation's
own future with its success or failure, independently of the others. -/

/-- The state of a concurrency-limited queue.  Operations are identified by
the order they were enqueued in: `nextId` counts enqueues, `pending` holds the
ids not yet started in FIFO order, `running` the ids in flight, `started` the
ids in the order they were started, and `settled` each finished id with the
success flag of its own future. -/
structure QueueState where
  nextId : Nat
  pending : List Nat
  running : List Nat
  started : List Nat
  settled : List (Nat × Bool)
deriving DecidableEq

/-- The empty queue. -/
def QueueState.init : QueueState :=
  { nextId := 0, pending := [], running := [], started := [], settled := [] }

/-- One transition of a queue with concurrency limit `c`: a caller enqueues a
new operation; the queue starts the *head* of the pending list while fewer
than `c` operations are in flight; an in-flight operation finishes,
resolving (`ok = true`) or rejecting (`ok = false`) its own future. -/
inductive QStep (c : Nat) : QueueState → QueueState → Prop
  | enqueue (s : QueueState) :
      QStep c s { s with nextId := s.nextId + 1, pending := s.pending ++ [s.nextId] }
  | start (s : QueueState) (i : Nat) (rest : List Nat)
      (hc : s.running.length < c) (hp : s.pending = i :: rest) :
      QStep c s { s with pending := rest, running := s.running ++ [i],
                         started := s.started ++ [i] }
  | finish (s : QueueState) (i : Nat) (ok : Bool) (hr : i ∈ s.running) :
      QStep c s { s with running := s.running.erase i,
                         settled := s.settled ++ [(i, ok)] }

/-- The states a queue with concurrency limit `c` can reach from empty. -/
inductive QReach (c : Nat) : QueueState → Prop
  | init : QReach c QueueState.init
  | step {s s' : QueueState} : QReach c s → QStep c s s' → QReach c s'


/-- The record with the three normalizer-owned keys removed (proof helper). -/
def stripPSM (m : JFields) : JFields :=
  ((m.filter (fun p => p.1 ≠ "parameters")).filter
    (fun p => p.1 ≠ "settings")).filter (fun p => p.1 ≠ "metadata")

/-- Whether a bridge action is a scheduled (delayed) emission. -/
def isScheduleAction : BridgeAction → Bool
  | .schedule _ _ => true
  | .emit _ _ => false

/-- The merged `parameters` value the normalizer assigns. -/
def paramsVal (m : JFields) : JFields :=
  jsSpread (extractInferenceParams m) (asObjFields (jGet m "parameters"))

/-- The merged `settings` value the normalizer assigns. -/
def settingsVal (m : JFields) : JFields :=
  jsSpread (extractModelLoadParams m) (asObjFields (jGet m "settings"))

/-- The `metadata` value the normalizer assigns. -/
def metaVal (m : JFields) : JVal :=
  jsNullishOr (jGet m "metadata") (defaultMetadata m)

/-! ## Lemmas on the object operations -/

theorem jGet_nil (k : String) : jGet [] k = none := rfl

theorem jGet_cons (p : String × JVal) (fs : JFields) (k : String) :
    jGet (p :: fs) k = if p.1 = k then some p.2 else jGet fs k := by
  by_cases h : p.1 = k <;> simp [jGet, List.find?_cons, h]

theorem jGet_append (as bs : JFields) (k : String) :
    jGet (as ++ bs) k = (jGet as k).or (jGet bs k) := by
  induction as with
  | nil => simp [jGet_nil, Option.or]
  | cons p as ih =>
    by_cases h : p.1 = k <;> simp [jGet_cons, h, ih, Option.or]

theorem jGet_filter_self (fs : JFields) (k : String) :
    jGet (fs.filter (fun p => p.1 ≠ k)) k = none := by
  induction fs with
  | nil => rfl
  | cons p fs ih =>
    rw [List.filter_cons]
    by_cases h : p.1 = k
    · rw [if_neg (by simp [h])]
      exact ih
    · rw [if_pos (by simp [h]), jGet_cons, if_neg h]
      exact ih

theorem jGet_filter_other (fs : JFields) (k k' : String) (h : k' ≠ k) :
    jGet (fs.filter (fun p => p.1 ≠ k)) k' = jGet fs k' := by
  induction fs with
  | nil => rfl
  | cons p fs ih =>
    rw [List.filter_cons]
    by_cases hp : p.1 = k
    · rw [if_neg (by simp [hp]), jGet_cons,
        if_neg (by rw [hp]; exact fun hk => h hk.symm)]
      exact ih
    · rw [if_pos (by simp [hp]), jGet_cons, jGet_cons]
      by_cases hk : p.1 = k'
      · rw [if_pos hk, if_pos hk]
      · rw [if_neg hk, if_neg hk]
        exact ih

theorem jGet_jSet_self (fs : JFields) (k : String) (v : JVal) :
    jGet (jSet fs k v) k = some v := by
  simp only [jSet]
  rw [jGet_append, jGet_filter_self, Option.none_or, jGet_cons, if_pos rfl]

theorem jGet_jSet_other (fs : JFields) (k : String) (v : JVal) (k' : String)
    (h : k' ≠ k) : jGet (jSet fs k v) k' = jGet fs k' := by
  simp only [jSet]
  rw [jGet_append, jGet_filter_other fs k k' h, jGet_cons,
    if_neg (fun hk => h hk.symm)]
  exact Option.or_none

theorem jHas_of_mem (fs : JFields) (p : String × JVal) (h : p ∈ fs) :
    jHas fs p.1 = true := by
  simp only [jHas, jGet, Option.isSome_map']
  rw [List.find?_isSome]
  exact ⟨p, h, by simp⟩

theorem jGet_jsSpread (a b : JFields) (k : String) :
    jGet (jsSpread a b) k = (jGet b k).or (jGet a k) := by
  simp only [jsSpread]
  rw [jGet_append]
  cases hbk : jGet b k with
  | some w =>
    have hfa : jGet (a.filter (fun p => ¬ jHas b p.1)) k = none := by
      induction a with
      | nil => rfl
      | cons p a ih =>
        rw [List.filter_cons]
        by_cases hk : p.1 = k
        · have hb : jHas b p.1 = true := by rw [hk]; simp [jHas, hbk]
          rw [if_neg (by simp [hb])]
          exact ih
        · by_cases hp : jHas b p.1 = true
          · rw [if_neg (by simp [hp])]
            exact ih
          · rw [if_pos (by simp [hp]), jGet_cons, if_neg hk]
            exact ih
    rw [hfa]
    rfl
  | none =>
    have hfa : jGet (a.filter (fun p => ¬ jHas b p.1)) k = jGet a k := by
      induction a with
      | nil => rfl
      | cons p a ih =>
        rw [List.filter_cons]
        by_cases hk : p.1 = k
        · have hb : jHas b p.1 = false := by rw [hk]; simp [jHas, hbk]
          rw [if_pos (by simp [hb]), jGet_cons, if_pos hk, jGet_cons, if_pos hk]
        · by_cases hp : jHas b p.1 = true
          · rw [if_neg (by simp [hp]), jGet_cons, if_neg hk]
            exact ih
          · rw [if_pos (by simp [hp]), jGet_cons, if_neg hk, jGet_cons, if_neg hk]
            exact ih
    rw [hfa, Option.none_or, Option.or_none]

/-! ## Lemmas on the normalizer -/

theorem extractParams_congr (keys : List String) (m m' : JFields)
    (h : ∀ k ∈ keys, jGet m k = jGet m' k) :
    extractParams keys m = extractParams keys m' := by
  induction keys with
  | nil => rfl
  | cons k keys ih =>
    simp only [extractParams, List.filterMap_cons] at *
    rw [h k (by simp)]
    cases jGet m' k <;>
      simp [ih (fun k hk => h k (List.mem_cons_of_mem _ hk))]

theorem jGet_transform_aux (m : JFields) (k : String)
    (h1 : k ≠ "parameters") (h2 : k ≠ "settings") :
    jGet (jSet (jSet m "parameters"
        (.obj (jsSpread (extractInferenceParams m)
          (asObjFields (jGet m "parameters")))))
      "settings" (.obj (jsSpread
        (extractModelLoadParams (jSet m "parameters"
          (.obj (jsSpread (extractInferenceParams m)
            (asObjFields (jGet m "parameters"))))))
        (asObjFields (jGet (jSet m "parameters"
          (.obj (jsSpread (extractInferenceParams m)
            (asObjFields (jGet m "parameters"))))) "settings"))))) k
      = jGet m k := by
  rw [jGet_jSet_other _ _ _ _ h2, jGet_jSet_other _ _ _ _ h1]

theorem loadParams_jSet_params (m : JFields) (v : JVal) :
    extractModelLoadParams (jSet m "parameters" v) = extractModelLoadParams m := by
  apply extractParams_congr
  intro k hk
  apply jGet_jSet_other
  revert hk
  revert k
  decide

theorem transformModelFields_eq (m : JFields) :
    transformModelFields m =
      stripPSM m ++
        [("parameters", .obj (paramsVal m)), ("settings", .obj (settingsVal m)),
         ("metadata", metaVal m)] := by
  simp only [transformModelFields]
  rw [loadParams_jSet_params,
    jGet_jSet_other _ _ _ "settings" (by decide)]
  have hmet : jGet (jSet (jSet m "parameters"
      (.obj (jsSpread (extractInferenceParams m)
        (asObjFields (jGet m "parameters")))))
    "settings" (.obj (jsSpread (extractModelLoadParams m)
      (asObjFields (jGet m "settings"))))) "metadata" = jGet m "metadata" := by
    rw [jGet_jSet_other _ _ _ _ (by decide), jGet_jSet_other _ _ _ _ (by decide)]
  have hsize : jGet (jSet (jSet m "parameters"
      (.obj (jsSpread (extractInferenceParams m)
        (asObjFields (jGet m "parameters")))))
    "settings" (.obj (jsSpread (extractModelLoadParams m)
      (asObjFields (jGet m "settings"))))) "size" = jGet m "size" := by
    rw [jGet_jSet_other _ _ _ _ (by decide), jGet_jSet_other _ _ _ _ (by decide)]
  rw [show defaultMetadata (jSet (jSet m "parameters"
      (.obj (jsSpread (extractInferenceParams m)
        (asObjFields (jGet m "parameters")))))
    "settings" (.obj (jsSpread (extractModelLoadParams m)
      (asObjFields (jGet m "settings"))))) = defaultMetadata m by
      simp only [defaultMetadata, hsize]]
  rw [hmet]
  simp only [jSet, List.filter_append]
  simp [stripPSM, paramsVal, settingsVal, metaVal, List.append_assoc]

theorem jGet_transform_params (m : JFields) :
    jGet (transformModelFields m) "parameters" = some (.obj (paramsVal m)) := by
  rw [transformModelFields_eq]
  simp only [stripPSM]
  rw [jGet_append,
    jGet_filter_other _ _ _ (by decide), jGet_filter_other _ _ _ (by decide),
    jGet_filter_self, Option.none_or, jGet_cons, if_pos rfl]

theorem jGet_transform_settings (m : JFields) :
    jGet (transformModelFields m) "settings" = some (.obj (settingsVal m)) := by
  rw [transformModelFields_eq]
  simp only [stripPSM]
  rw [jGet_append,
    jGet_filter_other _ _ _ (by decide), jGet_filter_self, Option.none_or,
    jGet_cons, if_neg (by simp), jGet_cons, if_pos rfl]

theorem jGet_transform_metadata (m : JFields) :
    jGet (transformModelFields m) "metadata" = some (metaVal m) := by
  rw [transformModelFields_eq]
  simp only [stripPSM]
  rw [jGet_append, jGet_filter_self, Option.none_or,
    jGet_cons, if_neg (by simp), jGet_cons, if_neg (by simp),
    jGet_cons, if_pos rfl]

theorem jGet_transform_other (m : JFields) (k : String)
    (h1 : k ≠ "parameters") (h2 : k ≠ "settings") (h3 : k ≠ "metadata") :
    jGet (transformModelFields m) k = jGet m k := by
  rw [transformModelFields_eq]
  simp only [stripPSM]
  rw [jGet_append,
    jGet_filter_other _ _ _ h3, jGet_filter_other _ _ _ h2,
    jGet_filter_other _ _ _ h1, jGet_cons,
    if_neg (fun hk => h1 hk.symm), jGet_cons,
    if_neg (fun hk => h2 hk.symm), jGet_cons,
    if_neg (fun hk => h3 hk.symm)]
  exact Option.or_none

theorem jsSpread_absorb (a b : JFields) :
    jsSpread a (jsSpread a b) = jsSpread a b := by
  have h : a.filter (fun p => ¬ jHas (jsSpread a b) p.1) = [] := by
    rw [List.filter_eq_nil_iff]
    intro p hp
    have ha : jHas a p.1 = true := jHas_of_mem a p hp
    have : jHas (jsSpread a b) p.1 = true := by
      simp only [jHas] at *
      rw [jGet_jsSpread]
      cases jGet b p.1 with
      | none => rw [Option.none_or]; exact ha
      | some w => rfl
    simp [this]
  show a.filter (fun p => ¬ jHas (jsSpread a b) p.1) ++ jsSpread a b = jsSpread a b
  rw [h, List.nil_append]

theorem inference_transform_congr (m : JFields) :
    extractInferenceParams (transformModelFields m) = extractInferenceParams m := by
  apply extractParams_congr
  intro k hk
  have h : k ≠ "parameters" ∧ k ≠ "settings" ∧ k ≠ "metadata" := by
    revert hk; revert k; decide
  exact jGet_transform_other m k h.1 h.2.1 h.2.2

theorem load_transform_congr (m : JFields) :
    extractModelLoadParams (transformModelFields m) = extractModelLoadParams m := by
  apply extractParams_congr
  intro k hk
  have h : k ≠ "parameters" ∧ k ≠ "settings" ∧ k ≠ "metadata" := by
    revert hk; revert k; decide
  exact jGet_transform_other m k h.1 h.2.1 h.2.2

theorem paramsVal_transform (m : JFields) :
    paramsVal (transformModelFields m) = paramsVal m := by
  show jsSpread _ _ = _
  rw [show extractInferenceParams (transformModelFields m) = extractInferenceParams m
      from inference_transform_congr m,
    jGet_transform_params]
  exact jsSpread_absorb _ _

theorem settingsVal_transform (m : JFields) :
    settingsVal (transformModelFields m) = settingsVal m := by
  show jsSpread _ _ = _
  rw [show extractModelLoadParams (transformModelFields m) = extractModelLoadParams m
      from load_transform_congr m,
    jGet_transform_settings]
  exact jsSpread_absorb _ _

theorem jsNullishOr_some_notNull (v b : JVal) (h : v ≠ .null) :
    jsNullishOr (some v) b = v := by
  cases v with
  | null => exact absurd rfl h
  | _ => rfl

theorem metaVal_ne_null (m : JFields) : metaVal m ≠ .null := by
  unfold metaVal jsNullishOr
  cases jGet m "metadata" with
  | none => simp [defaultMetadata]
  | some v => cases v <;> simp [defaultMetadata]

theorem metaVal_transform (m : JFields) :
    metaVal (transformModelFields m) = metaVal m := by
  show jsNullishOr _ _ = _
  rw [jGet_transform_metadata]
  exact jsNullishOr_some_notNull _ _ (metaVal_ne_null m)

theorem stripPSM_append (xs ys : JFields) :
    stripPSM (xs ++ ys) = stripPSM xs ++ stripPSM ys := by
  simp [stripPSM, List.filter_append]

theorem stripPSM_idem (m : JFields) : stripPSM (stripPSM m) = stripPSM m := by
  have h1 : (stripPSM m).filter (fun p => p.1 ≠ "parameters") = stripPSM m :=
    List.filter_eq_self.mpr (fun a ha =>
      (List.mem_filter.mp ((List.mem_filter.mp ((List.mem_filter.mp ha).1)).1)).2)
  have h2 : (stripPSM m).filter (fun p => p.1 ≠ "settings") = stripPSM m :=
    List.filter_eq_self.mpr (fun a ha =>
      (List.mem_filter.mp ((List.mem_filter.mp ha).1)).2)
  have h3 : (stripPSM m).filter (fun p => p.1 ≠ "metadata") = stripPSM m :=
    List.filter_eq_self.mpr (fun a ha => (List.mem_filter.mp ha).2)
  show (((stripPSM m).filter (fun p => p.1 ≠ "parameters")).filter
      (fun p => p.1 ≠ "settings")).filter (fun p => p.1 ≠ "metadata") = stripPSM m
  rw [h1, h2, h3]

theorem stripPSM_ownKeys (v1 v2 v3 : JVal) :
    stripPSM [("parameters", v1), ("settings", v2), ("metadata", v3)] = [] := by
  simp [stripPSM]

theorem stripPSM_transform (m : JFields) :
    stripPSM (transformModelFields m) = stripPSM m := by
  rw [transformModelFields_eq, stripPSM_append, stripPSM_idem, stripPSM_ownKeys,
    List.append_nil]

/-! ## Claim theorems -/

/-- C6: for every raw model record, the normalizer's output has `parameters`
and `settings` present, equal to the derived inference-parameter
(resp. load-parameter) defaults merged with the record's explicit parameters
(resp. settings): for each key, an explicitly present backend value overrides
the derived default (`Option.or` is left-biased, explicit first). -/
theorem c6_normalizer_merges_explicit_over_derived (m : JFields) :
    (∃ ps, jGet (transformModelFields m) "parameters" = some (.obj ps) ∧
      ∀ k, jGet ps k = (jGet (asObjFields (jGet m "parameters")) k).or
        (jGet (extractInferenceParams m) k)) ∧
    ∃ ss, jGet (transformModelFields m) "settings" = some (.obj ss) ∧
      ∀ k, jGet ss k = (jGet (asObjFields (jGet m "settings")) k).or
        (jGet (extractModelLoadParams m) k) :=
  ⟨⟨paramsVal m, jGet_transform_params m, fun k => jGet_jsSpread _ _ k⟩,
   ⟨settingsVal m, jGet_transform_settings m, fun k => jGet_jsSpread _ _ k⟩⟩

/-- C7: a record with no `metadata` field gets
`{tags: [], size: model.size ?? 0}`; a record with any metadata *object*
keeps that object as-is, with no field-by-field merging. -/
theorem c7_metadata_default_only_if_absent (m : JFields) :
    (jGet m "metadata" = none →
      jGet (transformModelFields m) "metadata" =
        some (.obj [("tags", .arr []),
          ("size", jsNullishOr (jGet m "size") (.num 0))])) ∧
    ∀ g : JFields, jGet m "metadata" = some (.obj g) →
      jGet (transformModelFields m) "metadata" = some (.obj g) := by
  constructor
  · intro h
    rw [jGet_transform_metadata,
      show metaVal m = defaultMetadata m by unfold metaVal; rw [h]; rfl]
    rfl
  · intro g h
    rw [jGet_transform_metadata]
    unfold metaVal
    rw [h]
    rfl

/-- Witness for C7 at concrete records: `{size: 5}` gains the default
metadata; `{metadata: {foo: 1}}` keeps it untouched. -/
theorem c7_metadata_default_witness :
    jGet (transformModelFields [("size", .num 5)]) "metadata" =
      some (.obj [("tags", .arr []), ("size", .num 5)]) ∧
    jGet (transformModelFields [("metadata", .obj [("foo", .num 1)])]) "metadata" =
      some (.obj [("foo", .num 1)]) :=
  ⟨(c7_metadata_default_only_if_absent [("size", .num 5)]).1 rfl,
   (c7_metadata_default_only_if_absent [("metadata", .obj [("foo", .num 1)])]).2
     [("foo", .num 1)] rfl⟩

/-- C8: the normalizer is embedded as a total function of the record value
(no I/O, no ambient state), and it is idempotent: normalizing an
already-normalized record yields the same record. -/
theorem c8_normalizer_idempotent (m : JFields) :
    transformModelFields (transformModelFields m) = transformModelFields m := by
  rw [transformModelFields_eq (transformModelFields m), stripPSM_transform,
    paramsVal_transform, settingsVal_transform, metaVal_transform,
    ← transformModelFields_eq]

theorem mapTransform_all_objs (xs : List JVal)
    (h : ∀ x ∈ xs, ∃ g, x = JVal.obj g) :
    ∃ ms, mapTransform xs = .ok ms ∧ ms.length = xs.length ∧
      ∀ i (hx : i < xs.length) (hm : i < ms.length),
        transformModel (xs.get ⟨i, hx⟩) = .ok (ms.get ⟨i, hm⟩) := by
  induction xs with
  | nil => exact ⟨[], rfl, rfl, fun i hx _ => absurd hx (Nat.not_lt_zero i)⟩
  | cons x xs ih =>
    obtain ⟨g, rfl⟩ := h x (List.mem_cons_self _ _)
    obtain ⟨ms, hms, hlen, hidx⟩ := ih (fun y hy => h y (List.mem_cons_of_mem _ hy))
    refine ⟨JVal.obj (transformModelFields g) :: ms, ?_, by simp [hlen], ?_⟩
    · simp only [mapTransform, transformModel, hms]
      rfl
    · intro i hx hm
      cases i with
      | zero => rfl
      | succ i =>
        exact hidx i (Nat.lt_of_succ_lt_succ hx) (Nat.lt_of_succ_lt_succ hm)

/-- C2: `getModels()` on a response whose `typeof` is not `'object'` resolves
to the empty list without throwing; on a `{data: [...]}` response whose
elements are records it resolves to one normalized record per element,
preserving input order. -/
theorem c2_getModels_malformed_and_order (e : JVal) :
    (typeofIsObject e = false → getModelsFromResponse e = .ok []) ∧
    ∀ fs xs, e = JVal.obj fs → jGet fs "data" = some (.arr xs) →
      (∀ x ∈ xs, ∃ g, x = JVal.obj g) →
      ∃ ms, getModelsFromResponse e = .ok ms ∧ ms.length = xs.length ∧
        ∀ i (hx : i < xs.length) (hm : i < ms.length),
          transformModel (xs.get ⟨i, hx⟩) = .ok (ms.get ⟨i, hm⟩) := by
  constructor
  · intro h
    simp [getModelsFromResponse, h]
  · rintro fs xs rfl hdata hobjs
    obtain ⟨ms, hms, hlen, hidx⟩ := mapTransform_all_objs xs hobjs
    refine ⟨ms, ?_, hlen, hidx⟩
    simp only [getModelsFromResponse, typeofIsObject, if_pos, hdata]
    exact hms

/-- Witness for C2: a string response degrades to the empty list; a one-record
`{data:[...]}` response maps to one record. -/
theorem c2_getModels_witness :
    getModelsFromResponse (.str "oops") = .ok [] ∧
    ∃ ms, getModelsFromResponse
        (.obj [("data", .arr [.obj [("id", .str "m1")]])]) = .ok ms ∧
      ms.length = 1 := by
  refine ⟨(c2_getModels_malformed_and_order (.str "oops")).1 rfl, ?_⟩
  obtain ⟨ms, hms, hlen, _⟩ := (c2_getModels_malformed_and_order _).2
    [("data", .arr [.obj [("id", .str "m1")]])] [.obj [("id", .str "m1")]]
    rfl rfl (fun x hx => by simp at hx; exact ⟨_, hx⟩)
  exact ⟨ms, hms, by simp [hlen]⟩

/-- C9 counterexample: a failing pull whose error response carries a body that
is not valid JSON rejects with the body-parse error, not with the raw
transport error as claimed. -/
theorem c9_pull_counterexample :
    pullModelResult (.httpError none) = .error .bodyParseError ∧
    (Except.error PullReject.bodyParseError : Except PullReject Unit) ≠
      .error .rawHttpError :=
  ⟨rfl, by simp⟩

/-- C9 amended: a failing pull rejects with the backend's parsed error body
when the error response carries one parsing to a non-`null` value; with the
raw HTTP error when the body parses to `null`; with the body-parse error when
the body is not valid JSON; with the raw transport error when there is no
response at all; and an accepted pull with a JSON body resolves to void. -/
theorem c9_pull_error_unwrapping :
    (∀ b, pullModelResult (.accepted (some b)) = .ok ()) ∧
    (∀ v, v ≠ JVal.null →
      pullModelResult (.httpError (some v)) = .error (.backendBody v)) ∧
    pullModelResult (.httpError (some .null)) = .error .rawHttpError ∧
    pullModelResult (.httpError none) = .error .bodyParseError ∧
    pullModelResult .networkError = .error .rawNetworkError := by
  refine ⟨fun b => rfl, fun v hv => ?_, rfl, rfl, rfl⟩
  cases v with
  | null => exact absurd rfl hv
  | _ => rfl

/-- Witness for C9 at a concrete structured error body. -/
theorem c9_pull_witness :
    pullModelResult (.httpError (some (.str "model not found"))) =
      .error (.backendBody (.str "model not found")) :=
  c9_pull_error_unwrapping.2.1 (.str "model not found") (by simp)

/-- C3 counterexample: `DownloadTypes` is a string enum, which compiles to a
key→value object with no reverse mapping; a frame whose declared type is the
string `onFileDownloadUpdate` is emitted under `DownloadTypes["onFileDownloadUpdate"]`,
which is `undefined` (`none`), not under the frame's declared type. -/
theorem c3_event_rename_counterexample :
    handleMessage ⟨"onFileDownloadUpdate", ⟨"m1", []⟩⟩ =
      [.emit none ⟨"m1", 0, 0, 0⟩] ∧
    (none : Option String) ≠ some "onFileDownloadUpdate" := by
  refine ⟨?_, by simp⟩
  rfl

/-- C3 amended: the 1:1 rename goes from the enum *keys* to the event names:
a frame typed by a member key (`DownloadUpdated`, …) is emitted as exactly one
event named `DownloadTypes[key]` (`onFileDownloadUpdate`, …) carrying
`{modelId = task.id, percent, size:{transferred, total}}`; a frame typed by
one of the event-name strings themselves is emitted with an undefined name. -/
theorem c3_event_rename_amended :
    (∀ key val : String, ∀ task : DownloadTask,
      (key, val) ∈ downloadTypesMembers →
      handleMessage ⟨key, task⟩ = [.emit (some val) (framePayload ⟨key, task⟩)]) ∧
    ∀ t : String, ∀ task : DownloadTask,
      t ∈ downloadTypesMembers.map (fun p => p.2) →
      downloadTypesIndex t = none ∧
        (handleMessage ⟨t, task⟩).head? =
          some (.emit none (framePayload ⟨t, task⟩)) := by
  constructor
  · intro key val task h
    simp only [downloadTypesMembers, List.mem_cons, List.not_mem_nil, or_false,
      Prod.mk.injEq] at h
    rcases h with ⟨rfl, rfl⟩ | ⟨rfl, rfl⟩ | ⟨rfl, rfl⟩ | ⟨rfl, rfl⟩ | ⟨rfl, rfl⟩ <;>
      rfl
  · intro t task h
    simp only [downloadTypesMembers, List.map_cons, List.map_nil, List.mem_cons,
      List.not_mem_nil, or_false] at h
    rcases h with rfl | rfl | rfl | rfl | rfl <;> exact ⟨rfl, rfl⟩

/-- Witness for C3 at the `DownloadUpdated` member key. -/
theorem c3_event_rename_witness :
    handleMessage ⟨"DownloadUpdated", ⟨"m1", []⟩⟩ =
      [.emit (some "onFileDownloadUpdate")
        (framePayload ⟨"DownloadUpdated", ⟨"m1", []⟩⟩)] :=
  c3_event_rename_amended.1 "DownloadUpdated" "onFileDownloadUpdate" ⟨"m1", []⟩
    (by simp [downloadTypesMembers])

theorem foldl_add_eq_sum (g : DownloadItem → Rat) (l : List DownloadItem)
    (x : Rat) : l.foldl (fun acc cur => acc + g cur) x = x + (l.map g).sum := by
  induction l generalizing x with
  | nil => simp
  | cons c l ih => simp [ih, add_assoc]

/-- C4: the emitted aggregate satisfies `transferred` = sum of the items'
`downloadedBytes`, `total` = sum of the items' `bytes`, and
`percent = transferred/total` when `total > 0`, `0` when `total = 0`; in
particular items `[{50,100},{0,100}]` give percent `1/4` and an all-zero item
list gives `0` without a divide-by-zero fault. -/
theorem c4_percent_aggregation :
    (∀ f : PushFrame,
      frameTransferred f = (f.task.items.map DownloadItem.downloadedBytes).sum ∧
      frameTotal f = (f.task.items.map DownloadItem.bytes).sum ∧
      (0 < frameTotal f → framePercent f = frameTransferred f / frameTotal f) ∧
      (frameTotal f = 0 → framePercent f = 0)) ∧
    framePercent ⟨"onFileDownloadUpdate", ⟨"m", [⟨50, 100⟩, ⟨0, 100⟩]⟩⟩ = 1/4 ∧
    framePercent ⟨"onFileDownloadUpdate", ⟨"m", [⟨0, 0⟩]⟩⟩ = 0 := by
  refine ⟨fun f => ⟨?_, ?_, fun h => ?_, fun h => ?_⟩,
    by norm_num [framePercent, frameTransferred, frameTotal],
    by norm_num [framePercent, frameTransferred, frameTotal]⟩
  · simp [frameTransferred, foldl_add_eq_sum]
  · simp [frameTotal, foldl_add_eq_sum]
  · simp [framePercent, h]
  · simp [framePercent, h]

/-- Witness for C4 at a frame with positive total bytes. -/
theorem c4_percent_witness :
    0 < frameTotal ⟨"t", ⟨"m", [⟨50, 100⟩, ⟨0, 100⟩]⟩⟩ ∧
    framePercent ⟨"t", ⟨"m", [⟨50, 100⟩, ⟨0, 100⟩]⟩⟩ =
      frameTransferred ⟨"t", ⟨"m", [⟨50, 100⟩, ⟨0, 100⟩]⟩⟩ /
        frameTotal ⟨"t", ⟨"m", [⟨50, 100⟩, ⟨0, 100⟩]⟩⟩ :=
  ⟨by norm_num [frameTotal],
   (c4_percent_aggregation.1 _).2.2.1 (by norm_num [frameTotal])⟩

/-- C5: exactly the frames whose type equals `DownloadTypes.DownloadSuccess`
(the string `onFileDownloadSuccess`) schedule one "models list changed"
(`OnModelsUpdate`) emission after the fixed 500 ms delay, after the progress
event; frames of any other type schedule none. -/
theorem c5_success_frame_schedules_update (f : PushFrame) :
    (handleMessage f).filter isScheduleAction =
      (if f.type = "onFileDownloadSuccess"
        then [.schedule 500 onModelsUpdateEvent] else []) ∧
    (f.type = "onFileDownloadSuccess" →
      handleMessage f =
        [.emit (downloadTypesIndex f.type) (framePayload f),
         .schedule 500 onModelsUpdateEvent]) := by
  constructor
  · by_cases h : f.type = "onFileDownloadSuccess" <;>
      simp [handleMessage, isScheduleAction, h]
  · intro h
    simp [handleMessage, h]

/-- Witness for C5 at a concrete success frame. -/
theorem c5_success_frame_witness :
    handleMessage ⟨"onFileDownloadSuccess", ⟨"m", []⟩⟩ =
      [.emit (downloadTypesIndex "onFileDownloadSuccess")
        (framePayload ⟨"onFileDownloadSuccess", ⟨"m", []⟩⟩),
       .schedule 500 onModelsUpdateEvent] :=
  (c5_success_frame_schedules_update _).2 rfl

/-- C10: a frame with an empty item list does not fault: both reduces start
from `0`, so `transferred = 0`, `total = 0`, the `total > 0` guard makes
`percent = 0` with no `0/0` evaluation, and the handler emits the payload
`{modelId = task.id, percent: 0, size: {transferred: 0, total: 0}}`. -/
theorem c10_empty_items_no_fault (t i : String) :
    frameTransferred ⟨t, ⟨i, []⟩⟩ = 0 ∧ frameTotal ⟨t, ⟨i, []⟩⟩ = 0 ∧
    framePercent ⟨t, ⟨i, []⟩⟩ = 0 ∧
    framePayload ⟨t, ⟨i, []⟩⟩ = ⟨i, 0, 0, 0⟩ ∧
    handleMessage ⟨t, ⟨i, []⟩⟩ =
      .emit (downloadTypesIndex t) ⟨i, 0, 0, 0⟩ ::
        (if t = "onFileDownloadSuccess"
          then [.schedule 500 onModelsUpdateEvent] else []) := by
  have hp : framePercent ⟨t, ⟨i, []⟩⟩ = 0 := by
    simp [framePercent, frameTotal]
  refine ⟨rfl, rfl, hp, ?_, ?_⟩
  · simp [framePayload, hp, frameTransferred, frameTotal]
  · simp [handleMessage, framePayload, hp, frameTransferred, frameTotal]

theorem qreach_invariant {c : Nat} {s : QueueState} (h : QReach c s) :
    s.running.length ≤ c ∧ s.started ++ s.pending = List.range s.nextId := by
  induction h with
  | init => simp [QueueState.init]
  | @step s₀ s₁ _ hstep ih =>
    obtain ⟨ih1, ih2⟩ := ih
    cases hstep with
    | enqueue =>
      refine ⟨ih1, ?_⟩
      show s₀.started ++ (s₀.pending ++ [s₀.nextId]) = List.range (s₀.nextId + 1)
      rw [← List.append_assoc, ih2, List.range_succ]
    | start i rest hc hp =>
      refine ⟨?_, ?_⟩
      · show (s₀.running ++ [i]).length ≤ c
        rw [List.length_append]
        simpa using hc
      · show (s₀.started ++ [i]) ++ rest = List.range s₀.nextId
        rw [List.append_assoc, ← ih2, hp]
        rfl
    | finish i ok hr =>
      exact ⟨Nat.le_trans (List.length_erase_le i s₀.running) ih1, ih2⟩

theorem qreach_started_fifo {c : Nat} {s : QueueState} (h : QReach c s) :
    s.started = List.range s.started.length := by
  have h2 := (qreach_invariant h).2
  have hn : s.nextId = s.started.length + s.pending.length := by
    have := congrArg List.length h2
    simp only [List.length_append, List.length_range] at this
    omega
  have hthis : s.started = (List.range s.nextId).take s.started.length := by
    rw [← h2]
    exact (List.take_left' rfl).symm
  rw [hn, List.range_add, List.take_left' (List.length_range _)] at hthis
  exact hthis

/-- C1: for every reachable state of the concurrency-1 queue every client
operation is routed through, at most one operation is in flight; the ids
started so far, in start order, are exactly the ids in enqueue order (strict
FIFO); and an in-flight operation rejecting settles only its own future —
the step is legal, it leaves the pending list, the start log, the other
settled entries and the enqueue counter untouched, and the head of the
pending list can start immediately afterwards.  (PQueue is an external
dependency: the queue transition system is modelled from the spec's
single-concurrency FIFO contract.) -/
theorem c1_queue_serial_fifo_isolates_failures (s : QueueState)
    (h : QReach 1 s) :
    s.running.length ≤ 1 ∧
    s.started ++ s.pending = List.range s.nextId ∧
    s.started = List.range s.started.length ∧
    ∀ i, i ∈ s.running →
      QStep 1 s { s with running := s.running.erase i,
                         settled := s.settled ++ [(i, false)] } ∧
      s.running.erase i = [] ∧
      ∀ j rest, s.pending = j :: rest →
        QStep 1 { s with running := s.running.erase i,
                         settled := s.settled ++ [(i, false)] }
          { s with pending := rest,
                   running := s.running.erase i ++ [j],
                   started := s.started ++ [j],
                   settled := s.settled ++ [(i, false)] } := by
  obtain ⟨h1, h2⟩ := qreach_invariant h
  refine ⟨h1, h2, qreach_started_fifo h, fun i hi => ?_⟩
  have hrun : s.running = [i] := by
    cases hr : s.running with
    | nil => rw [hr] at hi; exact absurd hi (List.not_mem_nil i)
    | cons a l =>
      cases l with
      | nil =>
        rw [hr] at hi
        simp only [List.mem_singleton] at hi
        rw [hi]
      | cons b l' =>
        exfalso
        rw [hr] at h1
        simp [List.length_cons] at h1
  have herase : s.running.erase i = [] := by
    rw [hrun, List.erase_cons_head]
  refine ⟨QStep.finish s i false hi, herase, fun j rest hp => ?_⟩
  exact QStep.start
    { s with running := s.running.erase i, settled := s.settled ++ [(i, false)] }
    j rest (by simp [herase]) hp

/-- Witness for C1: the state reached by enqueueing operation `0` and then
starting it is reachable, and the theorem's guarantees hold there. -/
theorem c1_queue_witness :
    QueueState.running ⟨1, [], [0], [0], []⟩ = [0] ∧
    (QueueState.running ⟨1, [], [0], [0], []⟩).length ≤ 1 ∧
    QueueState.started ⟨1, [], [0], [0], []⟩ = List.range 1 := by
  have hreach : QReach 1 ⟨1, [0], [], [], []⟩ :=
    QReach.step QReach.init (QStep.enqueue QueueState.init)
  have hreach2 : QReach 1 ⟨1, [], [0], [0], []⟩ :=
    QReach.step hreach
      (QStep.start ⟨1, [0], [], [], []⟩ 0 [] (by simp) rfl)
  obtain ⟨g1, _, g3, _⟩ := c1_queue_serial_fifo_isolates_failures _ hreach2
  exact ⟨rfl, g1, by simpa using g3⟩
